import Mathlib

/-!
Verification of the observability pipeline of the TikTok_Automation_System
repository: the alert manager state machine, the metrics time-series query,
the bounded log queue and its async worker, the log search and the log
retention sweep.  Definitions are shallow embeddings of the Python source in
`core/monitoring/dashboard.py` and `core/logging/logger.py`: machine floats
are modelled as rationals, timestamps as integers (seconds), the Python dict
`active_alerts` as an insertion-ordered association list with unique keys,
and exceptions as `Except` values.
-/

/-- One sampled metric, mirroring the dataclass `SystemMetric` in
`core/monitoring/dashboard.py` (timestamps are modelled as integer seconds,
float values as rationals). -/
structure SystemMetric where
  timestamp : Int
  metric_name : String
  metric_value : Rat
  unit : String
deriving Repr, DecidableEq

/-- An alert rule, mirroring the dataclass `AlertRule` in
`core/monitoring/dashboard.py`. -/
structure AlertRule where
  name : String
  metric : String
  operator : String
  threshold : Rat
  severity : String
  enabled : Bool := true
deriving Repr, DecidableEq

/-- Embedding of `AlertRule.check`: dispatch on the operator string; an
unknown operator yields `false`. -/
def AlertRule.check (r : AlertRule) (value : Rat) : Bool :=
  if r.operator = ">" then decide (value > r.threshold)
  else if r.operator = "<" then decide (value < r.threshold)
  else if r.operator = ">=" then decide (value ≥ r.threshold)
  else if r.operator = "<=" then decide (value ≤ r.threshold)
  else if r.operator = "==" then decide (value = r.threshold)
  else false

/-- Payload stored in `active_alerts` for a triggered rule, mirroring the
dict value built in `AlertManager._trigger_alert`. -/
structure ActiveAlert where
  rule : AlertRule
  triggered_at : Int
  current_value : Rat
deriving Repr, DecidableEq

/-- The `active_alerts` dict: insertion-ordered association list from the
string key to the alert payload. -/
abbrev AlertsMap := List (String × ActiveAlert)

/-- Embedding of the key expression in `_trigger_alert` and
`_resolve_alert`. -/
def alertKey (r : AlertRule) : String :=
  r.name ++ "_" ++ r.metric

/-- A structured log event emitted by the alert manager through
`system_logger.log_with_details` (logger "alerts"): either the trigger
event, carrying the level string computed in `_trigger_alert` and the
detail fields, or the resolution event logged at INFO. -/
inductive AlertEvent
  | triggered (level : String) (ruleName metricName : String)
      (threshold current_value : Rat) (severity : String)
  | resolved (ruleName metricName : String) (current_value : Rat)
deriving Repr, DecidableEq

/-- The log level a given alert event is emitted at: the trigger level is
computed in `_trigger_alert`; alert resolutions are always logged at
INFO. -/
def AlertEvent.level : AlertEvent → String
  | .triggered lv _ _ _ _ _ => lv
  | .resolved _ _ _ => "INFO"

/-- Embedding of `AlertManager._trigger_alert`: if the key is absent, append
the active alert and emit one trigger event whose level is WARNING for
severity "warning" and CRITICAL otherwise; if the key is present, do
nothing and emit nothing. -/
def trigger_alert (alerts : AlertsMap) (rule : AlertRule) (metric : SystemMetric) :
    AlertsMap × List AlertEvent :=
  let key := alertKey rule
  match alerts.lookup key with
  | some _ => (alerts, [])
  | none =>
      (alerts ++ [(key, ⟨rule, metric.timestamp, metric.metric_value⟩)],
       [AlertEvent.triggered
          (if rule.severity = "warning" then "WARNING" else "CRITICAL")
          rule.name rule.metric rule.threshold metric.metric_value rule.severity])

/-- Embedding of `AlertManager._resolve_alert`: if the key is present, delete
it from the dict and emit one resolution event; otherwise do nothing. -/
def resolve_alert (alerts : AlertsMap) (rule : AlertRule) (metric : SystemMetric) :
    AlertsMap × List AlertEvent :=
  let key := alertKey rule
  match alerts.lookup key with
  | some _ =>
      (alerts.filter (fun p => !(p.1 == key)),
       [AlertEvent.resolved rule.name rule.metric metric.metric_value])
  | none => (alerts, [])

/-- One inner iteration of `AlertManager.check_alerts`: evaluate one rule
against one metric.  Disabled rules and rules for a different metric name
leave the state unchanged. -/
def evalRule (alerts : AlertsMap) (metric : SystemMetric) (rule : AlertRule) :
    AlertsMap × List AlertEvent :=
  if !rule.enabled then (alerts, [])
  else if rule.metric = metric.metric_name then
    if rule.check metric.metric_value then trigger_alert alerts rule metric
    else resolve_alert alerts rule metric
  else (alerts, [])

/-- The inner `for rule in self.rules` loop of `check_alerts`, threading the
alert dict and accumulating emitted events in order. -/
def evalMetric (rules : List AlertRule) (alerts : AlertsMap) (metric : SystemMetric) :
    AlertsMap × List AlertEvent :=
  rules.foldl
    (fun acc rule =>
      let r := evalRule acc.1 metric rule
      (r.1, acc.2 ++ r.2))
    (alerts, [])

/-- The outer `for metric in metrics` loop of `AlertManager.check_alerts`. -/
def checkAlerts (rules : List AlertRule) (alerts : AlertsMap)
    (metrics : List SystemMetric) : AlertsMap × List AlertEvent :=
  metrics.foldl
    (fun acc metric =>
      let r := evalMetric rules acc.1 metric
      (r.1, acc.2 ++ r.2))
    (alerts, [])

/-- The alert manager object: its rule list and its `active_alerts` dict. -/
structure AlertManager where
  rules : List AlertRule
  active_alerts : AlertsMap
deriving Repr, DecidableEq

/-- Embedding of `AlertManager.check_alerts` on the manager object,
returning the updated manager and the emitted log events in order. -/
def AlertManager.check_alerts (m : AlertManager) (metrics : List SystemMetric) :
    AlertManager × List AlertEvent :=
  let r := checkAlerts m.rules m.active_alerts metrics
  (⟨m.rules, r.1⟩, r.2)

/-- The rule list built by `AlertManager._load_default_rules`. -/
def defaultRules : List AlertRule :=
  [⟨"High CPU Usage", "system.load_avg", ">", 2, "warning", true⟩,
   ⟨"High Memory Usage", "system.memory_usage", ">", 80, "warning", true⟩,
   ⟨"Critical Memory Usage", "system.memory_usage", ">", 90, "critical", true⟩,
   ⟨"High Disk Usage", "system.disk_usage", ">", 85, "warning", true⟩,
   ⟨"Critical Disk Usage", "system.disk_usage", ">", 95, "critical", true⟩]

/-- C10: whenever a trigger transition actually fires (the key is absent),
exactly one event is emitted, its level is "WARNING" exactly when the rule's
severity is "warning", and any other severity — "info" included — is logged
at "CRITICAL". -/
theorem trigger_alert_severity_level (alerts : AlertsMap) (rule : AlertRule)
    (metric : SystemMetric) (h : alerts.lookup (alertKey rule) = none) :
    ∃ ev, (trigger_alert alerts rule metric).2 = [ev] ∧
      (ev.level = "WARNING" ↔ rule.severity = "warning") ∧
      (rule.severity ≠ "warning" → ev.level = "CRITICAL") ∧
      (rule.severity = "info" → ev.level = "CRITICAL") := by
  refine ⟨AlertEvent.triggered (if rule.severity = "warning" then "WARNING" else "CRITICAL")
      rule.name rule.metric rule.threshold metric.metric_value rule.severity,
    by simp [trigger_alert, h], ?_, ?_, ?_⟩ <;>
    by_cases hs : rule.severity = "warning" <;>
      simp_all [AlertEvent.level]

/-- Witness for `trigger_alert_severity_level`: a concrete rule with severity
"info" gets its trigger event at level CRITICAL. -/
theorem trigger_alert_severity_level_witness :
    ∃ ev, (trigger_alert [] ⟨"R", "m", ">", 0, "info", true⟩ ⟨0, "m", 1, "u"⟩).2 = [ev] ∧
      (ev.level = "WARNING" ↔ (AlertRule.mk "R" "m" ">" 0 "info" true).severity = "warning") ∧
      ((AlertRule.mk "R" "m" ">" 0 "info" true).severity ≠ "warning" → ev.level = "CRITICAL") ∧
      ((AlertRule.mk "R" "m" ">" 0 "info" true).severity = "info" → ev.level = "CRITICAL") :=
  trigger_alert_severity_level [] ⟨"R", "m", ">", 0, "info", true⟩ ⟨0, "m", 1, "u"⟩ rfl

/-- Key-absence characterisation for association-list lookup. -/
theorem lookup_eq_none_iff_keys {β : Type} (l : List (String × β)) (k : String) :
    l.lookup k = none ↔ k ∉ l.map Prod.fst := by
  induction l with
  | nil => simp
  | cons p t ih =>
    obtain ⟨a, b⟩ := p
    by_cases hk : k = a
    · subst hk
      have hb : (k == k) = true := by simp
      simp [List.lookup, hb]
    · have hb : (k == a) = false := by simp [hk]
      simp [List.lookup, hb, hk, ih]

/-- Branch equation: a trigger on an already-active key is a no-op. -/
theorem trigger_alert_eq_of_some (alerts : AlertsMap) (rule : AlertRule)
    (metric : SystemMetric) (a : ActiveAlert)
    (h : alerts.lookup (alertKey rule) = some a) :
    trigger_alert alerts rule metric = (alerts, []) := by
  simp [trigger_alert, h]

/-- Branch equation: a trigger on an absent key appends the entry and emits
one trigger event. -/
theorem trigger_alert_eq_of_none (alerts : AlertsMap) (rule : AlertRule)
    (metric : SystemMetric) (h : alerts.lookup (alertKey rule) = none) :
    trigger_alert alerts rule metric
      = (alerts ++ [(alertKey rule, ⟨rule, metric.timestamp, metric.metric_value⟩)],
         [AlertEvent.triggered
            (if rule.severity = "warning" then "WARNING" else "CRITICAL")
            rule.name rule.metric rule.threshold metric.metric_value rule.severity]) := by
  simp [trigger_alert, h]

/-- Branch equation: a resolve on an active key deletes it and emits one
resolution event. -/
theorem resolve_alert_eq_of_some (alerts : AlertsMap) (rule : AlertRule)
    (metric : SystemMetric) (a : ActiveAlert)
    (h : alerts.lookup (alertKey rule) = some a) :
    resolve_alert alerts rule metric
      = (alerts.filter (fun p => !(p.1 == alertKey rule)),
         [AlertEvent.resolved rule.name rule.metric metric.metric_value]) := by
  simp [resolve_alert, h]

/-- Branch equation: a resolve on an absent key is a no-op. -/
theorem resolve_alert_eq_of_none (alerts : AlertsMap) (rule : AlertRule)
    (metric : SystemMetric) (h : alerts.lookup (alertKey rule) = none) :
    resolve_alert alerts rule metric = (alerts, []) := by
  simp [resolve_alert, h]

/-- The internal well-formedness of the `active_alerts` dict: keys are
pairwise distinct and each entry is stored under the key derived from its
own rule. -/
def AlertsInv (alerts : AlertsMap) : Prop :=
  (alerts.map Prod.fst).Nodup ∧ ∀ p ∈ alerts, p.1 = alertKey p.2.rule

theorem trigger_alert_inv (alerts : AlertsMap) (rule : AlertRule)
    (metric : SystemMetric) (h : AlertsInv alerts) :
    AlertsInv (trigger_alert alerts rule metric).1 := by
  obtain ⟨hnd, hcorr⟩ := h
  cases hl : alerts.lookup (alertKey rule) with
  | some a => rw [trigger_alert_eq_of_some alerts rule metric a hl]; exact ⟨hnd, hcorr⟩
  | none =>
    have hk : alertKey rule ∉ alerts.map Prod.fst :=
      (lookup_eq_none_iff_keys alerts (alertKey rule)).mp hl
    rw [trigger_alert_eq_of_none alerts rule metric hl]
    constructor
    · rw [List.map_append]
      refine List.Nodup.append hnd (List.nodup_singleton _) ?_
      intro x hx hx2
      simp only [List.map_cons, List.map_nil, List.mem_singleton] at hx2
      exact hk (hx2 ▸ hx)
    · intro p hp
      rcases List.mem_append.mp hp with hp | hp
      · exact hcorr p hp
      · simp only [List.mem_singleton] at hp
        subst hp
        rfl

theorem resolve_alert_inv (alerts : AlertsMap) (rule : AlertRule)
    (metric : SystemMetric) (h : AlertsInv alerts) :
    AlertsInv (resolve_alert alerts rule metric).1 := by
  obtain ⟨hnd, hcorr⟩ := h
  cases hl : alerts.lookup (alertKey rule) with
  | some a =>
    rw [resolve_alert_eq_of_some alerts rule metric a hl]
    exact ⟨List.Nodup.sublist (List.Sublist.map Prod.fst (List.filter_sublist alerts)) hnd,
      fun p hp => hcorr p (List.mem_of_mem_filter hp)⟩
  | none => rw [resolve_alert_eq_of_none alerts rule metric hl]; exact ⟨hnd, hcorr⟩

theorem evalRule_inv (alerts : AlertsMap) (metric : SystemMetric) (rule : AlertRule)
    (h : AlertsInv alerts) : AlertsInv (evalRule alerts metric rule).1 := by
  unfold evalRule
  split
  · exact h
  · split
    · split
      · exact trigger_alert_inv alerts rule metric h
      · exact resolve_alert_inv alerts rule metric h
    · exact h

/-- The first component of the event-accumulating rule fold is the plain fold
of the state updates. -/
theorem evalMetric_fst (rules : List AlertRule) (alerts : AlertsMap)
    (metric : SystemMetric) :
    (evalMetric rules alerts metric).1
      = rules.foldl (fun a r => (evalRule a metric r).1) alerts := by
  unfold evalMetric
  suffices h : ∀ (rs : List AlertRule) (a : AlertsMap) (es : List AlertEvent),
      (rs.foldl (fun acc rule => let r := evalRule acc.1 metric rule; (r.1, acc.2 ++ r.2))
        (a, es)).1 = rs.foldl (fun a r => (evalRule a metric r).1) a by
    exact h rules alerts []
  intro rs
  induction rs with
  | nil => intro a es; rfl
  | cons x t ih => intro a es; simpa using ih _ _

/-- The first component of the event-accumulating metric fold is the plain
fold of the state updates. -/
theorem checkAlerts_fst (rules : List AlertRule) (alerts : AlertsMap)
    (metrics : List SystemMetric) :
    (checkAlerts rules alerts metrics).1
      = metrics.foldl (fun a m => (evalMetric rules a m).1) alerts := by
  unfold checkAlerts
  suffices h : ∀ (ms : List SystemMetric) (a : AlertsMap) (es : List AlertEvent),
      (ms.foldl (fun acc metric => let r := evalMetric rules acc.1 metric; (r.1, acc.2 ++ r.2))
        (a, es)).1 = ms.foldl (fun a m => (evalMetric rules a m).1) a by
    exact h metrics alerts []
  intro ms
  induction ms with
  | nil => intro a es; rfl
  | cons x t ih => intro a es; simpa using ih _ _

theorem evalMetric_inv (rules : List AlertRule) (alerts : AlertsMap)
    (metric : SystemMetric) (h : AlertsInv alerts) :
    AlertsInv (evalMetric rules alerts metric).1 := by
  rw [evalMetric_fst]
  induction rules generalizing alerts with
  | nil => exact h
  | cons r t ih => exact ih _ (evalRule_inv alerts metric r h)

theorem checkAlerts_inv (rules : List AlertRule) (alerts : AlertsMap)
    (metrics : List SystemMetric) (h : AlertsInv alerts) :
    AlertsInv (checkAlerts rules alerts metrics).1 := by
  rw [checkAlerts_fst]
  induction metrics generalizing alerts with
  | nil => exact h
  | cons m t ih => exact ih _ (evalMetric_inv rules alerts m h)

/-- The states of the `active_alerts` dict reachable from the freshly
constructed manager (empty dict) by any sequence of `check_alerts`
evaluations. -/
inductive AlertsReachable (rules : List AlertRule) : AlertsMap → Prop
  | init : AlertsReachable rules []
  | step (alerts : AlertsMap) (metrics : List SystemMetric) :
      AlertsReachable rules alerts →
      AlertsReachable rules (checkAlerts rules alerts metrics).1

theorem reachable_inv (rules : List AlertRule) (alerts : AlertsMap)
    (h : AlertsReachable rules alerts) : AlertsInv alerts := by
  induction h with
  | init => exact ⟨List.nodup_nil, by simp⟩
  | step alerts metrics _ ih => exact checkAlerts_inv rules alerts metrics ih

/-- Branch equation: a disabled rule or a rule for a different metric leaves
the state untouched and emits nothing. -/
theorem evalRule_eq_skip (alerts : AlertsMap) (metric : SystemMetric) (rule : AlertRule)
    (h : rule.enabled = false ∨ rule.metric ≠ metric.metric_name) :
    evalRule alerts metric rule = (alerts, []) := by
  rcases h with h | h <;> simp [evalRule, h]

/-- Branch equation: an enabled, matching rule whose condition holds runs the
trigger transition. -/
theorem evalRule_eq_trigger (alerts : AlertsMap) (metric : SystemMetric) (rule : AlertRule)
    (he : rule.enabled = true) (hm : rule.metric = metric.metric_name)
    (hc : rule.check metric.metric_value = true) :
    evalRule alerts metric rule = trigger_alert alerts rule metric := by
  simp [evalRule, he, hm, hc]

/-- Branch equation: an enabled, matching rule whose condition fails runs the
resolve transition. -/
theorem evalRule_eq_resolve (alerts : AlertsMap) (metric : SystemMetric) (rule : AlertRule)
    (he : rule.enabled = true) (hm : rule.metric = metric.metric_name)
    (hc : rule.check metric.metric_value = false) :
    evalRule alerts metric rule = resolve_alert alerts rule metric := by
  simp [evalRule, he, hm, hc]

/-- A key newly present after one rule evaluation can only be the evaluated
rule's own key, created by the trigger transition: the rule is enabled,
matches the metric, its condition holds and the key was absent before. -/
theorem evalRule_new_key (alerts : AlertsMap) (metric : SystemMetric) (rule : AlertRule)
    (k : String) (hin : k ∈ (evalRule alerts metric rule).1.map Prod.fst)
    (hout : k ∉ alerts.map Prod.fst) :
    k = alertKey rule ∧ rule.enabled = true ∧ rule.metric = metric.metric_name ∧
      rule.check metric.metric_value = true ∧ alerts.lookup (alertKey rule) = none := by
  cases he : rule.enabled with
  | false =>
    rw [evalRule_eq_skip alerts metric rule (Or.inl he)] at hin
    exact absurd hin hout
  | true =>
    by_cases hm : rule.metric = metric.metric_name
    · cases hc : rule.check metric.metric_value with
      | true =>
        cases hl : alerts.lookup (alertKey rule) with
        | some a =>
          rw [evalRule_eq_trigger alerts metric rule he hm hc,
            trigger_alert_eq_of_some alerts rule metric a hl] at hin
          exact absurd hin hout
        | none =>
          rw [evalRule_eq_trigger alerts metric rule he hm hc,
            trigger_alert_eq_of_none alerts rule metric hl, List.map_append] at hin
          rcases List.mem_append.mp hin with h1 | h1
          · exact absurd h1 hout
          · simp only [List.map_cons, List.map_nil, List.mem_singleton] at h1
            exact ⟨h1, rfl, hm, rfl, rfl⟩
      | false =>
        cases hl : alerts.lookup (alertKey rule) with
        | some a =>
          rw [evalRule_eq_resolve alerts metric rule he hm hc,
            resolve_alert_eq_of_some alerts rule metric a hl] at hin
          rcases List.mem_map.mp hin with ⟨p, hp, hpk⟩
          exact absurd (hpk ▸ List.mem_map.mpr ⟨p, List.mem_of_mem_filter hp, rfl⟩) hout
        | none =>
          rw [evalRule_eq_resolve alerts metric rule he hm hc,
            resolve_alert_eq_of_none alerts rule metric hl] at hin
          exact absurd hin hout
    · rw [evalRule_eq_skip alerts metric rule (Or.inr hm)] at hin
      exact absurd hin hout

/-- A key removed by one rule evaluation can only be the evaluated rule's own
key, removed by the resolve transition: the rule is enabled, matches the
metric and its condition fails. -/
theorem evalRule_removed_key (alerts : AlertsMap) (metric : SystemMetric) (rule : AlertRule)
    (k : String) (hin : k ∈ alerts.map Prod.fst)
    (hout : k ∉ (evalRule alerts metric rule).1.map Prod.fst) :
    k = alertKey rule ∧ rule.enabled = true ∧ rule.metric = metric.metric_name ∧
      rule.check metric.metric_value = false := by
  cases he : rule.enabled with
  | false =>
    rw [evalRule_eq_skip alerts metric rule (Or.inl he)] at hout
    exact absurd hin hout
  | true =>
    by_cases hm : rule.metric = metric.metric_name
    · cases hc : rule.check metric.metric_value with
      | true =>
        cases hl : alerts.lookup (alertKey rule) with
        | some a =>
          rw [evalRule_eq_trigger alerts metric rule he hm hc,
            trigger_alert_eq_of_some alerts rule metric a hl] at hout
          exact absurd hin hout
        | none =>
          rw [evalRule_eq_trigger alerts metric rule he hm hc,
            trigger_alert_eq_of_none alerts rule metric hl, List.map_append] at hout
          exact absurd (List.mem_append.mpr (Or.inl hin)) hout
      | false =>
        cases hl : alerts.lookup (alertKey rule) with
        | some a =>
          rw [evalRule_eq_resolve alerts metric rule he hm hc,
            resolve_alert_eq_of_some alerts rule metric a hl] at hout
          by_cases hk : k = alertKey rule
          · exact ⟨hk, rfl, hm, rfl⟩
          · exfalso
            apply hout
            rcases List.mem_map.mp hin with ⟨p, hp, hpk⟩
            refine List.mem_map.mpr ⟨p, List.mem_filter.mpr ⟨hp, ?_⟩, hpk⟩
            simp [hpk, hk]
        | none =>
          rw [evalRule_eq_resolve alerts metric rule he hm hc,
            resolve_alert_eq_of_none alerts rule metric hl] at hout
          exact absurd hin hout
    · rw [evalRule_eq_skip alerts metric rule (Or.inr hm)] at hout
      exact absurd hin hout

/-- C7: in every state of the alert manager reachable by any sequence of
`check_alerts` evaluations, the active-alert dict has pairwise-distinct keys
— hence at most one entry per (rule name, metric name) pair — and the
atomic rule evaluation can create an entry only through the trigger
transition of the rule's own key when that key is absent, and can remove an
entry only through the resolve transition of that same key. -/
theorem active_alerts_per_key_invariant (rules : List AlertRule) (alerts : AlertsMap)
    (h : AlertsReachable rules alerts) :
    (alerts.map Prod.fst).Nodup ∧
    alerts.Pairwise
      (fun p q => ¬(p.2.rule.name = q.2.rule.name ∧ p.2.rule.metric = q.2.rule.metric)) ∧
    (∀ metric rule k,
      k ∈ (evalRule alerts metric rule).1.map Prod.fst → k ∉ alerts.map Prod.fst →
        k = alertKey rule ∧ rule.enabled = true ∧ rule.metric = metric.metric_name ∧
          rule.check metric.metric_value = true ∧ alerts.lookup (alertKey rule) = none) ∧
    (∀ metric rule k,
      k ∈ alerts.map Prod.fst → k ∉ (evalRule alerts metric rule).1.map Prod.fst →
        k = alertKey rule ∧ rule.enabled = true ∧ rule.metric = metric.metric_name ∧
          rule.check metric.metric_value = false) := by
  obtain ⟨hnd, hcorr⟩ := reachable_inv rules alerts h
  refine ⟨hnd, ?_,
    fun metric rule k hi ho => evalRule_new_key alerts metric rule k hi ho,
    fun metric rule k hi ho => evalRule_removed_key alerts metric rule k hi ho⟩
  have hp : alerts.Pairwise (fun p q => p.1 ≠ q.1) := List.pairwise_map.mp hnd
  refine List.Pairwise.imp_of_mem ?_ hp
  intro p q hpm hqm hne
  rintro ⟨h1, h2⟩
  exact hne (by rw [hcorr p hpm, hcorr q hqm, alertKey, alertKey, h1, h2])

/-- A concrete memory sample above the default 80 percent threshold. -/
def memSample85 : SystemMetric := ⟨0, "system.memory_usage", 85, "percent"⟩

/-- The dict state reached from the default manager after one `check_alerts`
call on `memSample85` (it holds the "High Memory Usage" alert). -/
def reachedAlerts : AlertsMap := (checkAlerts defaultRules [] [memSample85]).1

/-- Witness for `active_alerts_per_key_invariant` at the concrete nonempty
reachable state `reachedAlerts`. -/
theorem active_alerts_per_key_invariant_witness :
    (reachedAlerts.map Prod.fst).Nodup ∧
    reachedAlerts.Pairwise
      (fun p q => ¬(p.2.rule.name = q.2.rule.name ∧ p.2.rule.metric = q.2.rule.metric)) ∧
    (∀ metric rule k,
      k ∈ (evalRule reachedAlerts metric rule).1.map Prod.fst →
        k ∉ reachedAlerts.map Prod.fst →
        k = alertKey rule ∧ rule.enabled = true ∧ rule.metric = metric.metric_name ∧
          rule.check metric.metric_value = true ∧
          reachedAlerts.lookup (alertKey rule) = none) ∧
    (∀ metric rule k,
      k ∈ reachedAlerts.map Prod.fst →
        k ∉ (evalRule reachedAlerts metric rule).1.map Prod.fst →
        k = alertKey rule ∧ rule.enabled = true ∧ rule.metric = metric.metric_name ∧
          rule.check metric.metric_value = false) :=
  active_alerts_per_key_invariant defaultRules reachedAlerts
    (AlertsReachable.step [] [memSample85] AlertsReachable.init)

/-- A row of the `metrics` table of `metrics.db` (timestamp as integer
seconds, the ISO-8601 string ordering of the source being the chronological
one). -/
structure MetricRow where
  timestamp : Int
  metric_name : String
  metric_value : Rat
  unit : String
deriving Repr, DecidableEq

/-- Output order of the query: `a` may precede `b` iff `a` is at least as
recent (SQL `ORDER BY timestamp DESC`). -/
def rowLe (a b : MetricRow) : Prop := b.timestamp ≤ a.timestamp

instance : DecidableRel rowLe :=
  fun a b => inferInstanceAs (Decidable (b.timestamp ≤ a.timestamp))

instance : IsTotal MetricRow rowLe :=
  ⟨fun a b => le_total b.timestamp a.timestamp⟩

instance : IsTrans MetricRow rowLe :=
  ⟨fun _ _ _ hab hbc => le_trans hbc hab⟩

/-- Embedding of `MetricsCollector.get_metrics`: the SQL
`WHERE metric_name = ? AND timestamp > datetime('now', '-hours hours')
ORDER BY timestamp DESC` — a strict lower bound `now − hours·3600 <
timestamp`, no upper bound, results most-recent-first. -/
def MetricsCollector.get_metrics (db : List MetricRow) (now : Int)
    (metric_name : String) (hours : Int) : List MetricRow :=
  List.insertionSort rowLe
    (db.filter (fun row =>
      decide (row.metric_name = metric_name) &&
      decide (now - hours * 3600 < row.timestamp)))

/-- A stored sample whose timestamp is exactly `now − hours` on the boundary
of the claimed inclusive window. -/
def boundaryRow : MetricRow := ⟨0, "m", 1, "u"⟩

/-- C2 counterexample: the boundary sample lies in the claimed inclusive
interval [now − h·3600, now] and has the queried name, yet the query
returns nothing — the code's lower bound is strict, so the claim's
inclusive-interval description is false. -/
theorem get_metrics_boundary_counterexample :
    (3600 - 1 * 3600 ≤ boundaryRow.timestamp ∧ boundaryRow.timestamp ≤ (3600 : Int) ∧
      boundaryRow.metric_name = "m") ∧
    MetricsCollector.get_metrics [boundaryRow] 3600 "m" 1 = [] := by
  exact ⟨⟨by decide, by decide, rfl⟩, rfl⟩

/-- C2 amended: the query returns exactly the stored samples with the
queried name whose timestamp is strictly greater than now − hours (with no
upper bound at now), ordered most-recent-first. -/
theorem get_metrics_characterization (db : List MetricRow) (now : Int)
    (name : String) (hours : Int) :
    (∀ row, row ∈ MetricsCollector.get_metrics db now name hours ↔
      row ∈ db ∧ row.metric_name = name ∧ now - hours * 3600 < row.timestamp) ∧
    (MetricsCollector.get_metrics db now name hours).Sorted rowLe := by
  constructor
  · intro row
    unfold MetricsCollector.get_metrics
    rw [(List.perm_insertionSort rowLe _).mem_iff, List.mem_filter]
    simp
  · exact List.sorted_insertionSort rowLe _

/-- The mutable lifecycle state of `MetricsCollector`: its `running` flag
and its collection thread (modelled by an identifier when present). -/
structure MetricsCollector where
  running : Bool
  thread : Option Nat
deriving Repr, DecidableEq

/-- Embedding of `MetricsCollector.start_collection`: an early return when
already running, otherwise set the flag and install a fresh thread. -/
def MetricsCollector.start_collection (c : MetricsCollector) (newThread : Nat) :
    MetricsCollector :=
  if c.running then c else { running := true, thread := some newThread }

/-- Embedding of `MetricsCollector.stop_collection`: clear the flag, then
join the thread (when one exists) with a 5-second timeout; the second
component records the timeout passed to the join. -/
def MetricsCollector.stop_collection (c : MetricsCollector) :
    MetricsCollector × Option Nat :=
  ({ c with running := false }, if c.thread.isSome then some 5 else none)

/-- C9: `start_collection` is idempotent — starting while already running
returns the state unchanged, and a second start is always a no-op — and
`stop_collection` clears the running flag, leaves the thread field
unchanged, and joins with the bounded 5-second timeout whenever a thread
exists. -/
theorem collector_lifecycle (c : MetricsCollector) (t t2 : Nat) :
    (c.running = true → c.start_collection t = c) ∧
    ((c.start_collection t).start_collection t2 = c.start_collection t) ∧
    (c.stop_collection.1.running = false) ∧
    (c.stop_collection.1.thread = c.thread) ∧
    (c.thread.isSome = true → c.stop_collection.2 = some 5) := by
  refine ⟨fun h => by simp [MetricsCollector.start_collection, h], ?_, by
    simp [MetricsCollector.stop_collection], by
    simp [MetricsCollector.stop_collection], fun h => by
    simp [MetricsCollector.stop_collection, h]⟩
  by_cases h : c.running = true <;>
    simp [MetricsCollector.start_collection, h]

/-- Witness for `collector_lifecycle` at a concrete running collector. -/
theorem collector_lifecycle_witness :
    ((MetricsCollector.mk true (some 0)).running = true →
      (MetricsCollector.mk true (some 0)).start_collection 1 = ⟨true, some 0⟩) ∧
    (((MetricsCollector.mk true (some 0)).start_collection 1).start_collection 2
      = (MetricsCollector.mk true (some 0)).start_collection 1) ∧
    ((MetricsCollector.mk true (some 0)).stop_collection.1.running = false) ∧
    ((MetricsCollector.mk true (some 0)).stop_collection.1.thread = some 0) ∧
    ((MetricsCollector.mk true (some 0)).thread.isSome = true →
      (MetricsCollector.mk true (some 0)).stop_collection.2 = some 5) :=
  collector_lifecycle ⟨true, some 0⟩ 1 2

/-- The single rule posited by the C1 scenario. -/
def highMemoryRule : AlertRule :=
  ⟨"High Memory", "system.memory_usage", ">", 80, "warning", true⟩

/-- C1: with the single enabled rule ("High Memory", "system.memory_usage",
">", 80.0, "warning") and an initially empty active-alert set, evaluating the
sample sequence [70, 85, 90, 60] (at arbitrary timestamps) emits exactly the
trigger event at the sample with value 85 followed by the resolve event at
the sample with value 60 — the sample with value 90 emits nothing — and
leaves the active-alert set empty. -/
theorem check_alerts_highMemory_scenario (t1 t2 t3 t4 : Int) :
    AlertManager.check_alerts ⟨[highMemoryRule], []⟩
      [⟨t1, "system.memory_usage", 70, "percent"⟩,
       ⟨t2, "system.memory_usage", 85, "percent"⟩,
       ⟨t3, "system.memory_usage", 90, "percent"⟩,
       ⟨t4, "system.memory_usage", 60, "percent"⟩]
    = (⟨[highMemoryRule], []⟩,
       [AlertEvent.triggered "WARNING" "High Memory" "system.memory_usage" 80 85 "warning",
        AlertEvent.resolved "High Memory" "system.memory_usage" 60]) := by
  rfl

/-- Embedding of `LogQueueHandler.emit` over the bounded queue created by
`queue.Queue(maxsize=C)`: `put_nowait` appends the record at the tail unless
a positive capacity has been reached, in which case `queue.Full` is caught
and the record is dropped, the handler state (the queue) left unchanged. -/
def LogQueueHandler.emit {α : Type} (C : Nat) (q : List α) (r : α) : List α :=
  if 0 < C ∧ C ≤ q.length then q else q ++ [r]

/-- The queue capacity configured in `SystemLogger.__init__`. -/
def SystemLogger.queueCapacity : Nat := 1000

/-- One transition of the log queue: a producer enqueues through
`LogQueueHandler.emit`, or the worker dequeues the head record. -/
inductive QueueStep (C : Nat) {α : Type} : List α → List α → Prop
  | emit (q : List α) (r : α) : QueueStep C q (LogQueueHandler.emit C q r)
  | dequeue (q : List α) (r : α) : QueueStep C (r :: q) q

/-- Queue states reachable from the initially empty queue. -/
inductive QueueReachable (C : Nat) {α : Type} : List α → Prop
  | init : QueueReachable C []
  | step {q q' : List α} : QueueReachable C q → QueueStep C q q' → QueueReachable C q'

/-- C3: enqueue never blocks — below capacity the record is appended at the
tail, at capacity it is dropped with the queue unchanged and no error — and
consequently the queue length never exceeds the capacity in any reachable
state. -/
theorem emit_never_blocks_and_bounded {α : Type} (C : Nat) (hC : 0 < C) :
    (∀ (q : List α) (r : α), q.length < C → LogQueueHandler.emit C q r = q ++ [r]) ∧
    (∀ (q : List α) (r : α), q.length = C → LogQueueHandler.emit C q r = q) ∧
    (∀ q : List α, QueueReachable C q → q.length ≤ C) := by
  refine ⟨?_, ?_, ?_⟩
  · intro q r h
    have hne : ¬(0 < C ∧ C ≤ q.length) := fun hand => absurd h (not_lt.mpr hand.2)
    simp [LogQueueHandler.emit, hne]
  · intro q r h
    simp [LogQueueHandler.emit, hC, le_of_eq h.symm]
  · intro q hq
    induction hq with
    | init => simp
    | step hr hs ih =>
      cases hs with
      | emit q r =>
        unfold LogQueueHandler.emit
        split
        · exact ih
        · next hfull =>
          rcases not_and_or.mp hfull with h | h
          · exact absurd hC h
          · have hlen := Nat.not_le.mp h
            simpa using hlen
      | dequeue q r => exact Nat.le_of_succ_le (by simpa using ih)

/-- Witness for `emit_never_blocks_and_bounded` at capacity 2 over `Nat`
records. -/
theorem emit_never_blocks_and_bounded_witness :
    (∀ (q : List Nat) (r : Nat), q.length < 2 → LogQueueHandler.emit 2 q r = q ++ [r]) ∧
    (∀ (q : List Nat) (r : Nat), q.length = 2 → LogQueueHandler.emit 2 q r = q) ∧
    (∀ q : List Nat, QueueReachable 2 q → q.length ≤ 2) :=
  emit_never_blocks_and_bounded 2 (by decide)

/-- C8 counterexample: dropping a record at capacity leaves the handler
state — the queue, which is the only state the handler mutates — exactly
equal to what it was, so nothing in the logging subsystem's state records
the drop and no drop count can have increased. -/
theorem emit_drop_leaves_state_unchanged :
    LogQueueHandler.emit 2 [0, 1] 9 = [0, 1] := rfl

/-- C8 amended: an overflow drop is silent — it surfaces no error to the
caller — but it is not counted: the handler state is entirely unchanged by
the drop. -/
theorem emit_drop_silent_uncounted {α : Type} (C : Nat) (q : List α) (r : α)
    (h : 0 < C ∧ C ≤ q.length) : LogQueueHandler.emit C q r = q := by
  simp [LogQueueHandler.emit, h]

/-- Witness for `emit_drop_silent_uncounted` at a concrete full queue. -/
theorem emit_drop_silent_uncounted_witness :
    (0 < 2 ∧ 2 ≤ [0, 1].length) ∧ LogQueueHandler.emit 2 [0, 1] 9 = [0, 1] :=
  ⟨by decide, emit_drop_silent_uncounted 2 [0, 1] 9 (by decide)⟩

/-- Result of one iteration of `AsyncLogWorker.run` that dequeued a record:
which sinks (by registration index) received the record successfully, the
message printed to the fallback channel when a sink raised, whether
`task_done` was reached, and whether the worker loop continues. -/
structure IterationResult where
  delivered : List Nat
  fallbackMsg : Option String
  taskDone : Bool
  workerContinues : Bool
deriving Repr, DecidableEq

/-- The `for handler in self.handlers: handler.emit(record)` loop with
Python exception semantics: the first raising sink aborts the loop.  Returns
the indices (counted from `i`) of the sinks that emitted successfully,
paired with the escaped exception when one was raised. -/
def emitLoop {α : Type} (record : α) (i : Nat) :
    List (α → Except String Unit) → List Nat × Option String
  | [] => ([], none)
  | h :: rest =>
    match h record with
    | .ok _ =>
      let p := emitLoop record (i + 1) rest
      (i :: p.1, p.2)
    | .error e => ([], some e)

/-- One dequeue iteration of `AsyncLogWorker.run`: the sink fan-out runs
inside the `try`; an exception escaping a sink is caught by the
`except Exception` arm and printed, `task_done` is skipped, and the
`while self.running` loop continues either way. -/
def AsyncLogWorker.runOnce {α : Type} (handlers : List (α → Except String Unit))
    (record : α) : IterationResult :=
  match emitLoop record 0 handlers with
  | (d, none) => ⟨d, none, true, true⟩
  | (d, some e) => ⟨d, some ("Logging worker error: " ++ e), false, true⟩

/-- A sink that always raises. -/
def failingSink : Nat → Except String Unit := fun _ => .error "boom"

/-- A sink that always succeeds. -/
def okSink : Nat → Except String Unit := fun _ => .ok ()

/-- C4 counterexample: with a raising first sink followed by a healthy
second sink, the exception is caught (the worker continues) but the second,
remaining registered sink never receives the record — delivery is aborted,
contradicting the claim that the record is still delivered to every
remaining sink. -/
theorem worker_abort_counterexample :
    AsyncLogWorker.runOnce [failingSink, okSink] 0
      = ⟨[], some ("Logging worker error: " ++ "boom"), false, true⟩ := rfl

/-- Helper: the fan-out over sinks that all succeed up to the first raising
sink yields exactly the indices before the failure and the escaped error. -/
theorem emitLoop_append_fail {α : Type} (r : α) (e : String)
    (h : α → Except String Unit) (hfail : h r = .error e) :
    ∀ (pre post : List (α → Except String Unit)) (i : Nat),
      (∀ g ∈ pre, g r = .ok ()) →
      emitLoop r i (pre ++ h :: post) = (List.range' i pre.length, some e) := by
  intro pre
  induction pre with
  | nil => intro post i _; simp [emitLoop, hfail, List.range']
  | cons g t ih =>
    intro post i hp
    have hg : g r = .ok () := hp g (List.mem_cons_self g t)
    have ht := ih post (i + 1) (fun x hx => hp x (List.mem_cons_of_mem g hx))
    simp [emitLoop, hg, ht, List.range']

/-- C4 amended: when a sink raises during delivery, the exception is caught
and reported to the fallback channel and the worker loop keeps running, but
delivery for that record is aborted: exactly the sinks registered before
the failing one receive the record, none after it, and `task_done` is not
reached. -/
theorem worker_sink_failure_behavior {α : Type} (pre post : List (α → Except String Unit))
    (h : α → Except String Unit) (r : α) (e : String)
    (hfail : h r = .error e) (hpre : ∀ g ∈ pre, g r = .ok ()) :
    AsyncLogWorker.runOnce (pre ++ h :: post) r
      = ⟨List.range pre.length, some ("Logging worker error: " ++ e), false, true⟩ := by
  unfold AsyncLogWorker.runOnce
  rw [emitLoop_append_fail r e h hfail pre post 0 hpre, List.range_eq_range']

/-- Witness for `worker_sink_failure_behavior`: one healthy sink, then a
raising sink, then another healthy sink. -/
theorem worker_sink_failure_behavior_witness :
    AsyncLogWorker.runOnce [okSink, failingSink, okSink] 0
      = ⟨List.range 1, some ("Logging worker error: " ++ "boom"), false, true⟩ :=
  worker_sink_failure_behavior [okSink] [okSink] failingSink 0 "boom" rfl
    (by intro g hg; rw [List.mem_singleton] at hg; subst hg; rfl)

/-- The timestamp field of a JSON log entry as consumed by
`datetime.fromisoformat(entry['timestamp'])`: absent (a KeyError), present
but unparseable (a ValueError), or a valid instant. -/
inductive TsField
  | absent
  | invalid
  | valid (t : Int)
deriving Repr, DecidableEq

/-- The fields of a parsed JSON object line that `search_logs` touches,
each optional exactly as `dict.get` sees them. -/
structure JsonEntry where
  level : Option String
  timestamp : TsField
  message : Option String
deriving Repr, DecidableEq

/-- One physical line of the active log file: not JSON at all (`json.loads`
raises `JSONDecodeError`, handled by the inner `continue`), JSON but not an
object (every attribute access on it raises, escaping to the outer
handler), or a JSON object. -/
inductive LogLine
  | malformed
  | nonObject
  | entry (e : JsonEntry)
deriving Repr, DecidableEq

/-- Python truthiness of the optional `level` argument: `None` and the empty
string are falsy, so they disable the filter. -/
def levelActive : Option String → Bool
  | none => false
  | some s => !(s == "")

/-- Reading the entry's timestamp: anything but a valid instant raises. -/
def getTimestamp : TsField → Except Unit Int
  | .valid t => .ok t
  | _ => .error ()

/-- Character-wise lowercasing, modelling `str.lower()`. -/
def lowerChars (s : String) : List Char := s.data.map Char.toLower

/-- Does the needle occur at the head of the haystack? -/
def leadsList : List Char → List Char → Bool
  | [], _ => true
  | _ :: _, [] => false
  | a :: as, b :: bs => a == b && leadsList as bs

/-- Substring occurrence on character lists, modelling the Python `in`
operator on strings. -/
def subList (n : List Char) : List Char → Bool
  | [] => leadsList n []
  | c :: t => leadsList n (c :: t) || subList n t

/-- The final filter of `search_logs`: case-insensitive substring match of
the query in the entry's message (absent message read as ""). -/
def queryMatch (q : String) (e : JsonEntry) : Bool :=
  subList (lowerChars q) (lowerChars (e.message.getD ""))

/-- The `end_time` filter followed by the query match, in source order. -/
def checkEndAndQuery (q : String) (eT : Option Int) (e : JsonEntry) :
    Except Unit Bool :=
  match eT with
  | some en =>
    match getTimestamp e.timestamp with
    | .error _ => .error ()
    | .ok t => if t > en then .ok false else .ok (queryMatch q e)
  | none => .ok (queryMatch q e)

/-- The `start_time` filter followed by the rest of the chain, in source
order. -/
def checkStart (q : String) (sT eT : Option Int) (e : JsonEntry) :
    Except Unit Bool :=
  match sT with
  | some s =>
    match getTimestamp e.timestamp with
    | .error _ => .error ()
    | .ok t => if t < s then .ok false else checkEndAndQuery q eT e
  | none => checkEndAndQuery q eT e

/-- The whole per-entry filter chain of `SystemLogger.search_logs`, in
source order: level equality first, then the timestamp bounds, then the
case-insensitive substring match.  An `Except.error` is an exception
escaping to the outer handler. -/
def processLine (q : String) (sT eT : Option Int) (lv : Option String)
    (e : JsonEntry) : Except Unit Bool :=
  if levelActive lv && !(e.level == lv) then .ok false
  else checkStart q sT eT e

/-- Does scanning this line raise an exception that escapes to the outer
handler? -/
def lineRaises (q : String) (sT eT : Option Int) (lv : Option String) :
    LogLine → Bool
  | .malformed => false
  | .nonObject => true
  | .entry e =>
    match processLine q sT eT lv e with
    | .error _ => true
    | .ok _ => false

/-- The scanning loop of `search_logs` with its accumulated `results`: a
non-JSON line is skipped by the inner handler; any escaping exception is
caught by the outer handler, which returns the results gathered so far. -/
def search_logsAux (q : String) (sT eT : Option Int) (lv : Option String)
    (acc : List JsonEntry) : List LogLine → List JsonEntry
  | [] => acc
  | line :: rest =>
    match line with
    | .malformed => search_logsAux q sT eT lv acc rest
    | .nonObject => acc
    | .entry e =>
      match processLine q sT eT lv e with
      | .error _ => acc
      | .ok true => search_logsAux q sT eT lv (acc ++ [e]) rest
      | .ok false => search_logsAux q sT eT lv acc rest

/-- Embedding of `SystemLogger.search_logs` over the active file's lines. -/
def SystemLogger.search_logs (lines : List LogLine) (q : String)
    (sT eT : Option Int) (lv : Option String) : List JsonEntry :=
  search_logsAux q sT eT lv [] lines

/-- A JSON object line whose timestamp field is missing. -/
def badTsEntry : JsonEntry := ⟨some "INFO", TsField.absent, some "hello"⟩

/-- A fully well-formed entry that passes every filter of the
counterexample query. -/
def goodEntry : JsonEntry := ⟨some "INFO", TsField.valid 5, some "hello"⟩

/-- C5 counterexample: with a start_time filter supplied, a line that parses
as JSON but lacks a parseable timestamp aborts the scan, so a later
well-formed line that passes every filter is not returned — the scan does
not continue to the end of the file. -/
theorem search_logs_abort_counterexample :
    processLine "" (some 0) none none goodEntry = .ok true ∧
    SystemLogger.search_logs [LogLine.entry badTsEntry, LogLine.entry goodEntry]
      "" (some 0) none none = [] :=
  ⟨rfl, rfl⟩

/-- Helper: when no line of the file raises, the scanning loop is a
file-order filter over the parsed entries, with the accumulated prefix in
front. -/
theorem search_logsAux_spec (q : String) (sT eT : Option Int) (lv : Option String) :
    ∀ (lines : List LogLine) (acc : List JsonEntry),
      (∀ l ∈ lines, lineRaises q sT eT lv l = false) →
      search_logsAux q sT eT lv acc lines
        = acc ++ lines.filterMap (fun l =>
            match l with
            | .malformed => none
            | .nonObject => none
            | .entry e =>
              match processLine q sT eT lv e with
              | .ok true => some e
              | _ => none) := by
  intro lines
  induction lines with
  | nil => intro acc _; simp [search_logsAux]
  | cons line rest ih =>
    intro acc hok
    have hrest : ∀ l ∈ rest, lineRaises q sT eT lv l = false :=
      fun l hl => hok l (List.mem_cons_of_mem line hl)
    have hline : lineRaises q sT eT lv line = false :=
      hok line (List.mem_cons_self line rest)
    cases line with
    | malformed => simp [search_logsAux, ih acc hrest, List.filterMap_cons]
    | nonObject => simp [lineRaises] at hline
    | entry e =>
      cases hpe : processLine q sT eT lv e with
      | error u => simp [lineRaises, hpe] at hline
      | ok b =>
        cases b with
        | true =>
          simp only [search_logsAux, hpe, List.filterMap_cons]
          rw [ih (acc ++ [e]) hrest]
          simp
        | false =>
          simp only [search_logsAux, hpe, List.filterMap_cons]
          rw [ih acc hrest]

/-- C5 amended: provided no scanned line raises (no JSON object with a
missing or unparseable timestamp while a time bound is supplied, and no
non-object JSON line), `search_logs` returns, in file order, exactly the
JSON object lines passing every supplied filter, skipping non-JSON lines;
and for an entry with a valid timestamp the filter chain accepts it exactly
when the level matches (when the filter is active), the timestamp lies in
the inclusive bounds, and the query occurs case-insensitively in the
message. -/
theorem search_logs_characterization (lines : List LogLine) (q : String)
    (sT eT : Option Int) (lv : Option String)
    (hok : ∀ l ∈ lines, lineRaises q sT eT lv l = false) :
    SystemLogger.search_logs lines q sT eT lv
      = lines.filterMap (fun l =>
          match l with
          | .malformed => none
          | .nonObject => none
          | .entry e =>
            match processLine q sT eT lv e with
            | .ok true => some e
            | _ => none) ∧
    (∀ e t, e.timestamp = TsField.valid t →
      (processLine q sT eT lv e = .ok true ↔
        ((levelActive lv = true → e.level = lv) ∧
         (∀ s, sT = some s → s ≤ t) ∧
         (∀ en, eT = some en → t ≤ en) ∧
         queryMatch q e = true))) := by
  constructor
  · simpa using search_logsAux_spec q sT eT lv lines [] hok
  · intro e t hts
    by_cases hl : (levelActive lv && !(e.level == lv)) = true
    · rw [processLine, if_pos hl]
      rw [Bool.and_eq_true, Bool.not_eq_eq_eq_not, Bool.not_true, beq_eq_false_iff_ne] at hl
      constructor
      · intro h; exact absurd h (by simp)
      · rintro ⟨h1, -, -, -⟩
        exact absurd (h1 hl.1) hl.2
    · rw [processLine, if_neg hl]
      rw [Bool.and_eq_true, not_and] at hl
      have hlev : levelActive lv = true → e.level = lv := by
        intro ha
        have := hl ha
        simpa using this
      rcases sT with _ | s <;> rcases eT with _ | en <;>
        simp only [checkStart, checkEndAndQuery, hts, getTimestamp]
      · constructor
        · intro h
          exact ⟨hlev, by simp, by simp, by simpa using h⟩
        · rintro ⟨-, -, -, h4⟩
          simpa using h4
      · by_cases hen : t > en
        · simp only [if_pos hen]
          constructor
          · intro h; exact absurd h (by simp)
          · rintro ⟨-, -, h3, -⟩
            exact absurd (h3 en rfl) (by omega)
        · simp only [if_neg hen]
          simp only [not_lt] at hen
          constructor
          · intro h
            refine ⟨hlev, by simp, fun x hx => by injection hx with hx; omega, by simpa using h⟩
          · rintro ⟨-, -, -, h4⟩
            simpa using h4
      · by_cases hs : t < s
        · simp only [if_pos hs]
          constructor
          · intro h; exact absurd h (by simp)
          · rintro ⟨-, h2, -, -⟩
            exact absurd (h2 s rfl) (by omega)
        · simp only [if_neg hs]
          simp only [not_lt] at hs
          constructor
          · intro h
            refine ⟨hlev, fun x hx => by injection hx with hx; omega, by simp, by simpa using h⟩
          · rintro ⟨-, -, -, h4⟩
            simpa using h4
      · by_cases hs : t < s
        · simp only [if_pos hs]
          constructor
          · intro h; exact absurd h (by simp)
          · rintro ⟨-, h2, -, -⟩
            exact absurd (h2 s rfl) (by omega)
        · simp only [if_neg hs]
          simp only [not_lt] at hs
          by_cases hen : t > en
          · simp only [if_pos hen]
            constructor
            · intro h; exact absurd h (by simp)
            · rintro ⟨-, -, h3, -⟩
              exact absurd (h3 en rfl) (by omega)
          · simp only [if_neg hen]
            simp only [not_lt] at hen
            constructor
            · intro h
              refine ⟨hlev, fun x hx => by injection hx with hx; omega,
                fun x hx => by injection hx with hx; omega, by simpa using h⟩
            · rintro ⟨-, -, -, h4⟩
              simpa using h4

/-- Witness for `search_logs_characterization`: a file with one corrupt
line and one well-formed entry, under a level filter, both time bounds and
a query. -/
theorem search_logs_characterization_witness :
    SystemLogger.search_logs [LogLine.malformed, LogLine.entry goodEntry]
        "ell" (some 0) (some 9) (some "INFO")
      = [LogLine.malformed, LogLine.entry goodEntry].filterMap (fun l =>
          match l with
          | .malformed => none
          | .nonObject => none
          | .entry e =>
            match processLine "ell" (some 0) (some 9) (some "INFO") e with
            | .ok true => some e
            | _ => none) ∧
    (∀ e t, e.timestamp = TsField.valid t →
      (processLine "ell" (some 0) (some 9) (some "INFO") e = .ok true ↔
        ((levelActive (some "INFO") = true → e.level = some "INFO") ∧
         (∀ s, (some 0 : Option Int) = some s → s ≤ t) ∧
         (∀ en, (some 9 : Option Int) = some en → t ≤ en) ∧
         queryMatch "ell" e = true))) :=
  search_logs_characterization [LogLine.malformed, LogLine.entry goodEntry]
    "ell" (some 0) (some 9) (some "INFO") (by decide)

/-- A file of the log directory as seen by `glob` and `stat`: its name and
its last-modified time (integer seconds). -/
structure FsFile where
  name : String
  mtime : Int
deriving Repr, DecidableEq

/-- Does the file name match the glob pattern used by the sweep, `*.log*`
(the name contains ".log")? -/
def matchesLogGlob (n : String) : Bool := subList ".log".data n.data

/-- One iteration of the sweep loop over one file: a matching file older
than the cutoff is unlinked (incrementing the count) unless the unlink
raises, in which case the failure is logged and the file survives; any
other file is untouched. -/
def cleanupStep (cutoff : Int) (unlinkFails : String → Bool)
    (acc : List FsFile × Nat) (f : FsFile) : List FsFile × Nat :=
  if matchesLogGlob f.name && decide (f.mtime < cutoff) then
    if unlinkFails f.name then (acc.1 ++ [f], acc.2)
    else (acc.1, acc.2 + 1)
  else (acc.1 ++ [f], acc.2)

/-- Embedding of `SystemLogger.cleanup_old_logs`: sweep the directory with
cutoff `now − days_to_keep·24·60·60`; returns the surviving files (in
directory order) and the number of files actually deleted. -/
def SystemLogger.cleanup_old_logs (files : List FsFile) (now days_to_keep : Int)
    (unlinkFails : String → Bool) : List FsFile × Nat :=
  files.foldl (cleanupStep (now - days_to_keep * 24 * 60 * 60) unlinkFails) ([], 0)

/-- Helper: the sweep fold is a partition of the directory by the
should-delete-and-unlink-succeeds predicate, whatever the accumulator. -/
theorem cleanup_foldl_spec (cutoff : Int) (uf : String → Bool) :
    ∀ (fs : List FsFile) (acc : List FsFile × Nat),
      fs.foldl (cleanupStep cutoff uf) acc
        = (acc.1 ++ fs.filter (fun f =>
            !(matchesLogGlob f.name && decide (f.mtime < cutoff) && !uf f.name)),
           acc.2 + (fs.filter (fun f =>
            matchesLogGlob f.name && decide (f.mtime < cutoff) && !uf f.name)).length) := by
  intro fs
  induction fs with
  | nil => intro acc; simp
  | cons f t ih =>
    intro acc
    rw [List.foldl_cons]
    by_cases h1 : (matchesLogGlob f.name && decide (f.mtime < cutoff)) = true
    · by_cases h2 : uf f.name = true
      · have hc : (matchesLogGlob f.name && decide (f.mtime < cutoff) && !uf f.name) = false := by
          rw [h1, h2]; rfl
        have hstep : cleanupStep cutoff uf acc f = (acc.1 ++ [f], acc.2) := by
          simp only [cleanupStep]
          rw [if_pos h1, if_pos h2]
        rw [hstep, ih]
        simp only [List.filter_cons]
        rw [hc]
        simp
      · have h2f : uf f.name = false := by simpa using h2
        have hc : (matchesLogGlob f.name && decide (f.mtime < cutoff) && !uf f.name) = true := by
          rw [h1, h2f]; rfl
        have hstep : cleanupStep cutoff uf acc f = (acc.1, acc.2 + 1) := by
          simp only [cleanupStep]
          rw [if_pos h1, if_neg h2]
        rw [hstep, ih]
        simp only [List.filter_cons]
        rw [hc]
        simp only [Bool.not_true, Bool.false_eq_true, if_false, if_true, List.length_cons,
          Prod.mk.injEq]
        refine ⟨by simp, by omega⟩
    · have h1f : (matchesLogGlob f.name && decide (f.mtime < cutoff)) = false := by
        simpa using h1
      have hc : (matchesLogGlob f.name && decide (f.mtime < cutoff) && !uf f.name) = false := by
        rw [h1f]; rfl
      have hstep : cleanupStep cutoff uf acc f = (acc.1 ++ [f], acc.2) := by
        simp only [cleanupStep]
        rw [if_neg h1]
      rw [hstep, ih]
      simp only [List.filter_cons]
      rw [hc]
      simp

/-- C6: the sweep deletes exactly the `*.log*` files whose last-modified
time is strictly older than the cutoff and whose unlink does not fail,
leaves every other file untouched (in order), returns the number of files
actually deleted, and a per-file unlink failure does not abort the sweep —
in particular, with no failures it deletes exactly the old log files and
returns their number. -/
theorem cleanup_old_logs_characterization (files : List FsFile) (now d : Int)
    (unlinkFails : String → Bool) :
    (SystemLogger.cleanup_old_logs files now d unlinkFails).1
      = files.filter (fun f =>
          !(matchesLogGlob f.name && decide (f.mtime < now - d * 24 * 60 * 60) &&
            !unlinkFails f.name)) ∧
    (SystemLogger.cleanup_old_logs files now d unlinkFails).2
      = (files.filter (fun f =>
          matchesLogGlob f.name && decide (f.mtime < now - d * 24 * 60 * 60) &&
          !unlinkFails f.name)).length ∧
    (SystemLogger.cleanup_old_logs files now d (fun _ => false)).1
      = files.filter (fun f =>
          !(matchesLogGlob f.name && decide (f.mtime < now - d * 24 * 60 * 60))) ∧
    (SystemLogger.cleanup_old_logs files now d (fun _ => false)).2
      = (files.filter (fun f =>
          matchesLogGlob f.name && decide (f.mtime < now - d * 24 * 60 * 60))).length := by
  have h1 := cleanup_foldl_spec (now - d * 24 * 60 * 60) unlinkFails files ([], 0)
  have h2 := cleanup_foldl_spec (now - d * 24 * 60 * 60) (fun _ => false) files ([], 0)
  unfold SystemLogger.cleanup_old_logs
  rw [h1, h2]
  simp
